import Mathlib

/-!
Verification development for the BitShares mail client
(`src/libraries/mail/client.cpp`).

The data model and the operations below are shallow embeddings of the
C++ source: persistent `level_map`/`cached_level_map` stores become
association lists, the 160-bit `ripemd160` content digest becomes an
arbitrary function `Message → Nat` (the digest is opaque to the client
logic; every claim quantifies over it), wall-clock times become `Nat`
seconds supplied as inputs, and the cooperative-task pipeline becomes
explicit state passing with the scheduler's choices (slice budgets,
cancellation arrivals, per-server RPC outcomes) supplied as data.
-/

namespace MailClient

/-- Modelled from the spec: the `mail_status` enumeration is declared in
`client.hpp`, which is not part of the sources here.  The order follows the
spec's listing `{submitted, proof_of_work, transmitting, accepted, failed,
canceled}` for processing records, which is consistent with the source's
ordered comparisons `status <= proof_of_work` (cancel boundary) and
`status >= transmitting` (transmit timeout).  Archive records additionally
use `received`; its ordinal is not derivable from these sources and no
claim depends on it, so it is placed after `accepted` following the spec's
archive-status listing `{accepted, received}`. -/
inductive MailStatus where
  | submitted
  | proof_of_work
  | transmitting
  | accepted
  | received
  | failed
  | canceled
  deriving DecidableEq

/-- Numeric value of a status, mirroring the C++ enum's underlying integers
in declaration order. -/
def MailStatus.code : MailStatus → Nat
  | .submitted => 0
  | .proof_of_work => 1
  | .transmitting => 2
  | .accepted => 3
  | .received => 4
  | .failed => 5
  | .canceled => 6

/-- The C++ comparison `status <= other` on the `mail_status` enum. -/
def MailStatus.le (a b : MailStatus) : Prop := a.code ≤ b.code

instance (a b : MailStatus) : Decidable (a.le b) := by
  unfold MailStatus.le; infer_instance

/-- Message type tags (`bts::mail::message_type`): `encrypted`, `email`,
`transaction_notice` are the ones the client logic branches on. -/
inductive MessageType where
  | encrypted
  | email
  | transaction_notice
  deriving DecidableEq

/-- The typed envelope `bts::mail::message`.  Only the fields the client
mutates or reads are modelled: `timestamp` and `nonce` (mutated while
mining), the `type` tag, the subject carried by an email-typed plaintext,
and an opaque `body` component standing for the rest of the payload. -/
structure Message where
  type : MessageType
  timestamp : Nat
  nonce : Nat
  subject : String
  body : Nat
  deriving DecidableEq

/-- The content digest `message::id()` (a ripemd160 of the serialized
message).  Modelled from the spec: `id = H(serialize(message))` for an
opaque digest `H`; the embedding quantifies over the function. -/
abbrev Hash : Type := Message → Nat

/-- A mail server entry: `(account name, endpoint)` as held in
`mail_server_list`. -/
abbrev Server : Type := String × Nat

/-- Set-insert into a `mail_server_list` (an `unordered_set`). -/
def insertServer (s : Server) (l : List Server) : List Server :=
  if s ∈ l then l else l ++ [s]

/-- `bts::mail::detail::mail_record` — one in-flight outgoing message. -/
structure MailRecord where
  id : Nat
  status : MailStatus
  sender : String
  recipient : String
  recipientKey : Nat
  content : Message
  mailServers : List Server
  proofOfWorkTarget : Nat
  failureReason : String
  deriving DecidableEq

/-- `bts::mail::detail::mail_archive_record` — one durably stored
(sent or received) message.  `recipient_address` is `address(recipient_key)`;
the address digest is modelled as the key value itself since only equality
of addresses matters to the client logic. -/
structure MailArchiveRecord where
  id : Nat
  status : MailStatus
  sender : String
  recipient : String
  recipientAddress : Nat
  content : Message
  mailServers : List Server
  deriving DecidableEq

/-- `bts::mail::email_header`. -/
structure EmailHeader where
  id : Nat
  sender : String
  recipient : String
  timestamp : Nat
  subject : String
  deriving DecidableEq

/-- `bts::mail::detail::mail_index_record` — one row of the in-memory
multi-index. -/
structure MailIndexRecord where
  id : Nat
  sender : String
  recipient : String
  timestamp : Nat
  deriving DecidableEq

/-- Association-list lookup: models `level_map::fetch_optional` /
`find(...).valid()`. -/
def alookup {κ α : Type} [DecidableEq κ] : List (κ × α) → κ → Option α
  | [], _ => none
  | kv :: rest, k => if kv.1 = k then some kv.2 else alookup rest k

/-- Association-list store: models `level_map::store` (overwrite the key if
present, insert otherwise). -/
def astore {κ α : Type} [DecidableEq κ] : List (κ × α) → κ → α → List (κ × α)
  | [], k, v => [(k, v)]
  | kv :: rest, k, v => if kv.1 = k then (k, v) :: rest else kv :: astore rest k v

/-- Association-list removal: models `level_map::remove`. -/
def aremove {κ α : Type} [DecidableEq κ] (db : List (κ × α)) (k : κ) : List (κ × α) :=
  db.filter (fun kv => kv.1 ≠ k)

theorem alookup_astore_self {κ α : Type} [DecidableEq κ]
    (db : List (κ × α)) (k : κ) (v : α) : alookup (astore db k v) k = some v := by
  induction db with
  | nil => simp [astore, alookup]
  | cons kv rest ih =>
      by_cases h : kv.1 = k
      · simp [astore, h, alookup]
      · simp [astore, h, alookup, ih]

theorem alookup_astore_other {κ α : Type} [DecidableEq κ]
    (db : List (κ × α)) (k k' : κ) (v : α) (h : k' ≠ k) :
    alookup (astore db k v) k' = alookup db k' := by
  induction db with
  | nil => simp [astore, alookup, Ne.symm h]
  | cons kv rest ih =>
      by_cases hk : kv.1 = k
      · have hkv : kv.1 ≠ k' := by rw [hk]; exact Ne.symm h
        simp [astore, hk, alookup, Ne.symm h, hkv]
      · simp [astore, hk, alookup, ih]

theorem alookup_aremove_self {κ α : Type} [DecidableEq κ]
    (db : List (κ × α)) (k : κ) : alookup (aremove db k) k = none := by
  induction db with
  | nil => simp [aremove, alookup]
  | cons kv rest ih =>
      by_cases h : kv.1 = k
      · simpa [aremove, h] using ih
      · simpa [aremove, List.filter, h, alookup] using ih

/-- The whole mutable state of a `client_impl`: the four keyed stores, the
in-memory multi-index, the `_messages_in` counter, and the open flags of the
four databases. -/
structure ClientState where
  processing : List (Nat × MailRecord)
  archive : List (Nat × MailArchiveRecord)
  inbox : List (Nat × EmailHeader)
  properties : List (String × Nat)
  index : List MailIndexRecord
  messagesIn : Nat
  archiveOpen : Bool
  processingOpen : Bool
  inboxOpen : Bool
  propertyOpen : Bool
  deriving DecidableEq

/-! ### Disk serialization of processing records

`FC_REFLECT(bts::mail::detail::mail_record, (id)(status)(sender)(recipient)
(recipient_key)(content)(mail_servers)(proof_of_work_target))` — client.cpp
lines 979-980 — is the reflected field list used to serialize a
`mail_record` to the `processing` database.  Note that `failure_reason` is
absent from the list. -/

/-- The on-disk image of a `mail_record`: exactly the reflected fields. -/
structure ReflectedMailRecord where
  id : Nat
  status : MailStatus
  sender : String
  recipient : String
  recipientKey : Nat
  content : Message
  mailServers : List Server
  proofOfWorkTarget : Nat
  deriving DecidableEq

/-- Serialize a `mail_record` through its `FC_REFLECT` field list. -/
def serializeMailRecord (r : MailRecord) : ReflectedMailRecord :=
  { id := r.id
    status := r.status
    sender := r.sender
    recipient := r.recipient
    recipientKey := r.recipientKey
    content := r.content
    mailServers := r.mailServers
    proofOfWorkTarget := r.proofOfWorkTarget }

/-- Deserialize a `mail_record`: unreflected fields keep their
default-constructed values, so `failure_reason` comes back as the empty
string. -/
def deserializeMailRecord (s : ReflectedMailRecord) : MailRecord :=
  { id := s.id
    status := s.status
    sender := s.sender
    recipient := s.recipient
    recipientKey := s.recipientKey
    content := s.content
    mailServers := s.mailServers
    proofOfWorkTarget := s.proofOfWorkTarget
    failureReason := "" }

/-- A store-to-disk followed by a fetch-from-disk, as happens to every
processing record across a client restart (`open` re-reads the
`processing` database from disk). -/
def diskRoundTrip (r : MailRecord) : MailRecord :=
  deserializeMailRecord (serializeMailRecord r)

/-! ### Facade operation: `client::cancel_message` (client.cpp 798-808) -/

/-- `client::cancel_message`: look the id up in the processing database; if a
record is found, assert `status <= proof_of_work` (an `FC_ASSERT` failure is
an error returned to the caller, with no state change) and store the record
back with status `canceled`.  If no record is found the function simply
returns: no error is raised and nothing changes. -/
def cancelMessage (db : List (Nat × MailRecord)) (mid : Nat) :
    Except String (List (Nat × MailRecord)) :=
  match alookup db mid with
  | some r =>
      if r.status.le .proof_of_work then
        .ok (astore db mid { r with status := .canceled })
      else
        .error "Cannot cancel message once it has been submitted to servers."
  | none => .ok db

/-! ### Header and record conversions -/

/-- `email_header::email_header(const detail::mail_record&)` (client.cpp
933-944): id, sender, recipient from the record, timestamp from the
content; the subject is filled in only for email-typed content. -/
def headerOfMailRecord (r : MailRecord) : EmailHeader :=
  { id := r.id
    sender := r.sender
    recipient := r.recipient
    timestamp := r.content.timestamp
    subject := if r.content.type = .email then r.content.subject else "" }

/-- `mail_archive_record::mail_archive_record(mail_record&&)` (client.cpp
64-72): moves every field across; `recipient_address` is the address of the
recipient key. -/
def archiveOfMailRecord (r : MailRecord) : MailArchiveRecord :=
  { id := r.id
    status := r.status
    sender := r.sender
    recipient := r.recipient
    recipientAddress := r.recipientKey
    content := r.content
    mailServers := r.mailServers }

/-- `mail_index_record::mail_index_record(const email_header&)` (client.cpp
92-97). -/
def indexOfHeader (h : EmailHeader) : MailIndexRecord :=
  { id := h.id, sender := h.sender, recipient := h.recipient, timestamp := h.timestamp }

/-- `mail_index_record::mail_index_record(mail_archive_record&&)` (client.cpp
98-103): the timestamp comes from the archived content. -/
def indexOfArchiveRecord (r : MailArchiveRecord) : MailIndexRecord :=
  { id := r.id, sender := r.sender, recipient := r.recipient
    timestamp := r.content.timestamp }

/-- Insertion into `_mail_index`: the first index of the
`multi_index_container` is `ordered_unique` on `id`, so inserting a row
whose id is already present leaves the container unchanged. -/
def indexInsert (idx : List MailIndexRecord) (row : MailIndexRecord) :
    List MailIndexRecord :=
  if idx.any (fun x => x.id == row.id) then idx else idx ++ [row]

/-! ### `client_impl::finalize_message` (client.cpp 536-545) -/

/-- Finalize a successfully transmitted message: fetch the processing record
under the stable id, overwrite its `id` with the final content hash, set
status `accepted`, insert a header row into the in-memory index, store the
record in the archive under the final id, and remove the processing record
under the stable id. -/
def finalizeMessage (H : Hash) (st : ClientState) (mid : Nat) : ClientState :=
  match alookup st.processing mid with
  | none => st
  | some email =>
      let email1 := { email with id := H email.content, status := .accepted }
      let st1 := { st with index := indexInsert st.index (indexOfHeader (headerOfMailRecord email1)) }
      let st2 := { st1 with archive := astore st1.archive email1.id (archiveOfMailRecord email1) }
      { st2 with processing := aremove st2.processing mid }

/-! ### `client_impl::open` (client.cpp 216-245)

The version-property logic of `open`: after opening the four databases, the
`version` property is written when absent; then it is fetched and compared
with the supported version, and a mismatch raises an `FC_ASSERT` that the
surrounding `catch (...)` block turns into closing the archive, processing
and property databases (the inbox is left open by that handler).  The
re-dispatch loop over surviving processing records and the background
archive indexing that follow the version check enqueue asynchronous work
modelled by the pipeline functions below; they do not touch the property
database. -/

/-- `BTS_MAIL_CLIENT_DATABASE_VERSION` (client.cpp 35). -/
def supportedDbVersion : Nat := 1

/-- The `catch (...)` handler of `open`: closes `_archive`,
`_processing_db` and `_property_db` (not `_inbox`). -/
def closeOnOpenFailure (st : ClientState) : ClientState :=
  { st with archiveOpen := false, processingOpen := false, propertyOpen := false }

/-- The version-handling portion of `client_impl::open`. -/
def openClient (st : ClientState) : ClientState :=
  let st1 := { st with archiveOpen := true, processingOpen := true,
                       inboxOpen := true, propertyOpen := true }
  let st2 :=
    if (alookup st1.properties "version").isNone then
      { st1 with properties := astore st1.properties "version" supportedDbVersion }
    else st1
  match alookup st2.properties "version" with
  | some v => if v ≠ supportedDbVersion then closeOnOpenFailure st2 else st2
  | none => closeOnOpenFailure st2

/-- `client_impl::is_open` (client.cpp 243-245): only the property database
is consulted. -/
def isOpen (st : ClientState) : Bool := st.propertyOpen

/-! ### Background archive indexing: `client_impl::index_archive`
(client.cpp 247-252)

The indexing task scans the archive in order and inserts each record into
the (initially empty) in-memory multi-index. -/

/-- The completed background indexing pass over an archive database. -/
def indexArchive (archive : List (Nat × MailArchiveRecord)) : List MailIndexRecord :=
  archive.foldl (fun idx kv => indexInsert idx (indexOfArchiveRecord kv.2)) []

/-! ### Proof-of-work job: `client_impl::schedule_proof_of_work`
(client.cpp 346-401)

One queued job of the proof-of-work supervisor.  The scheduler's choices are
supplied as data: a `PowStep` per evaluation of the mining loop's condition,
carrying whether a concurrent `cancel_message` call lands just before the
check, the wall-clock second used to refresh the content timestamp, and the
number of nonce increments the one-second bounded slice performs. -/

/-- One mining-loop iteration's worth of scheduler input. -/
structure PowStep where
  cancelBefore : Bool
  time : Nat
  budget : Nat

/-- The bounded mining slice (client.cpp 374-380): while the slice is not
canceled, less than one second has elapsed, and `content.id() > target`,
increment the nonce.  The time/cancellation bound is modelled by the
`budget` of remaining loop iterations. -/
def powMine (H : Hash) (target : Nat) : Nat → Message → Message
  | 0, m => m
  | b + 1, m => if H m ≤ target then m else powMine H target b { m with nonce := m.nonce + 1 }

/-- A concurrent `cancel_message` arriving while the job runs: applied to the
processing database through the facade operation (a rejected cancel leaves
the state unchanged). -/
def applyCancel (st : ClientState) (mid : Nat) : ClientState :=
  match cancelMessage st.processing mid with
  | .ok db => { st with processing := db }
  | .error _ => st

/-- Status of the processing record as the job refetches it from the
database (client.cpp 368 and 390). -/
def statusAt (st : ClientState) (mid : Nat) : Option MailStatus :=
  (alookup st.processing mid).map (fun r => r.status)

/-- The mining loop (client.cpp 368-399) plus its exit code: at each
boundary the job refetches the record's status from the database and tests
the in-memory content hash against the target.  While the condition holds it
refreshes the content timestamp, persists, and runs one bounded slice.  On
exit, a database status of `canceled` makes the job store the record as
`failed` with reason `"Canceled by user."`; otherwise the mined record is
persisted and handed to the transmit queue.  `none` means the supplied step
list ran out before the loop exited (a fuel artifact of the model). -/
def powLoop (H : Hash) (mid : Nat) :
    List PowStep → MailRecord → ClientState → Option ClientState
  | [], _, _ => none
  | s :: rest, email, st =>
      let st1 := if s.cancelBefore then applyCancel st mid else st
      if statusAt st1 mid ≠ some .canceled ∧ H email.content > email.proofOfWorkTarget then
        let email1 := { email with content := { email.content with timestamp := s.time } }
        let st2 := { st1 with processing := astore st1.processing email1.id email1 }
        let email2 := { email1 with
          content := powMine H email1.proofOfWorkTarget s.budget email1.content }
        powLoop H mid rest email2 st2
      else
        some (if statusAt st1 mid = some .canceled then
                { st1 with processing := (astore st1.processing mid
                    { email with status := .failed, failureReason := "Canceled by user." }) }
              else
                { st1 with processing := astore st1.processing email.id email })

/-- One proof-of-work job (the lambda queued by `schedule_proof_of_work`).
The job fetches the record and checks `status != canceled &&
proof_of_work_target != 0`; when the check fails, the source first assigns
`email->status = client::failed;` and only then computes the failure reason
with the conditional `email->status == client::canceled ? "Canceled by
user." : "No proof of work target. Cannot do proof of work."` — reading the
status it has just overwritten.  The model mirrors that statement order
exactly.  When the check passes, the record is persisted as
`proof_of_work` and the mining loop runs. -/
def powJob (H : Hash) (st : ClientState) (mid : Nat) (steps : List PowStep) :
    Option ClientState :=
  match alookup st.processing mid with
  | none => some st
  | some email0 =>
      if email0.status ≠ .canceled ∧ email0.proofOfWorkTarget ≠ 0 then
        let email1 := { email0 with status := .proof_of_work }
        let st1 := { st with processing := astore st.processing email1.id email1 }
        powLoop H mid steps email1 st1
      else
        let email1 := { email0 with status := .failed }
        let reason :=
          if email1.status = .canceled then "Canceled by user."
          else "No proof of work target. Cannot do proof of work."
        let email2 := { email1 with failureReason := reason }
        some { st with processing := astore st.processing email2.id email2 }

/-! ### Transmission: `client_impl::schedule_transmit_message`
(client.cpp 403-534)

One queued transmit job.  The per-server fan-out is concurrent in the
source; the model fixes the interleaving in which the sub-tasks complete in
server-list order and the supervising loop observes the database after each
completion (every such interleaving is realizable by the cooperative
scheduler).  The per-server network outcome is supplied as data.  The
10-second timeout path marks the record `failed` when no server has
succeeded, so it never leads to a finalize and is not one of the modelled
interleavings. -/

/-- The outcome of one server's sub-task conversation, as interpreted by the
sub-task body (client.cpp 422-499).  The sentinel comparisons against
`message_already_stored().what()` and `timestamp_too_old().what()` (the
strings live in `exceptions.hpp`, outside these sources) are modelled as
distinguished constructors. -/
inductive TransmitResponse where
  | connectFail (err : String)
  | errorAlreadyStored
  | errorTimestampTooOld
  | errorOther (err : String)
  | wrongMessage
  | success
  deriving DecidableEq

/-- Modelled from the spec: the `what()` text of the `timestamp_too_old`
exception declared in `exceptions.hpp` (not in these sources); its exact
text is irrelevant to every claim. -/
def timestampTooOldWhat : String := "timestamp too old"

/-- State shared by the transmit sub-tasks: the client state plus the
`successful_servers` set accumulated by the parent. -/
structure TransmitState where
  st : ClientState
  successfulServers : List Server

/-- One transmit sub-task (the lambda at client.cpp 422-499), given its
server's response.  The sub-task refetches the record, then either: marks
the record failed on a connection error when no server has succeeded yet;
counts an `message_already_stored` rejection as success without storing;
resets the record to `proof_of_work` with an incremented nonce on
`timestamp_too_old`; marks the record failed on any other server error or on
a fetch-back hash mismatch; or records the server as successful. -/
def transmitSubtask (mid : Nat) (server : Server) (resp : TransmitResponse)
    (ts : TransmitState) : TransmitState :=
  match alookup ts.st.processing mid with
  | none => ts
  | some email =>
      match resp with
      | .connectFail e =>
          if ts.successfulServers = [] then
            { ts with st := { ts.st with processing := (astore ts.st.processing mid
                { email with status := .failed, failureReason := e }) } }
          else ts
      | .errorAlreadyStored =>
          { ts with successfulServers := insertServer server ts.successfulServers }
      | .errorTimestampTooOld =>
          { ts with st := { ts.st with processing := (astore ts.st.processing mid
              { email with status := .proof_of_work
                           failureReason := timestampTooOldWhat
                           content := { email.content with nonce := email.content.nonce + 1 } }) } }
      | .errorOther e =>
          { ts with st := { ts.st with processing := (astore ts.st.processing mid
              { email with status := .failed, failureReason := e }) } }
      | .wrongMessage =>
          { ts with st := { ts.st with processing := (astore ts.st.processing mid
              { email with status := .failed
                           failureReason := "Message saved to server, but server responded with another message when we requested it." }) } }
      | .success =>
          { ts with successfulServers := insertServer server ts.successfulServers }

/-- The supervising wait loop (client.cpp 516-525): after each sub-task
completes, the record is refetched; a `failed` status aborts the job
(cancelling the remaining sub-tasks and returning without finalize).  The
Boolean result records whether the job aborted. -/
def runTransmitTasks (mid : Nat) (resp : Server → TransmitResponse) :
    List Server → TransmitState → TransmitState × Bool
  | [], ts => (ts, false)
  | server :: rest, ts =>
      let ts1 := transmitSubtask mid server (resp server) ts
      match alookup ts1.st.processing mid with
      | none => (ts1, true)
      | some email =>
          if email.status = .failed then (ts1, true)
          else runTransmitTasks mid resp rest ts1

/-- One transmit job (the lambda queued by `schedule_transmit_message`).
Fetch the record; an empty server list is a terminal failure; otherwise
persist status `transmitting`, run the sub-tasks, and — unless the job
aborted on a failed status — when at least one server succeeded, overwrite
the record's servers with the successful subset, persist, and finalize. -/
def transmitMessage (H : Hash) (st : ClientState) (mid : Nat)
    (resp : Server → TransmitResponse) : ClientState :=
  match alookup st.processing mid with
  | none => st
  | some email =>
      if email.mailServers = [] then
        { st with processing := (astore st.processing mid
            { email with status := .failed
                         failureReason := "No mail servers found when trying to transmit message." }) }
      else
        let st1 := { st with processing := (astore st.processing mid
            { email with status := .transmitting }) }
        let (ts, aborted) := runTransmitTasks mid resp email.mailServers ⟨st1, []⟩
        if aborted then ts.st
        else if ts.successfulServers ≠ [] then
          match alookup ts.st.processing mid with
          | none => ts.st
          | some emailFinal =>
              let emailFinal1 := { emailFinal with mailServers := ts.successfulServers }
              let st2 := { ts.st with processing := astore ts.st.processing mid emailFinal1 }
              finalizeMessage H st2 mid
        else ts.st

/-! ### Queries: `client_impl::get_inbox` (client.cpp 611-619) -/

/-- Collect every header in the inbox store (in whatever order the store
iterates) and sort by `timestamp` using `std::sort` with the comparator
`a.timestamp < b.timestamp`. -/
def getInbox (st : ClientState) : List EmailHeader :=
  (st.inbox.map (fun kv => kv.2)).mergeSort (fun a b => a.timestamp ≤ b.timestamp)

/-! ### The fetcher: `client_impl::check_new_mail` (client.cpp 626-773)

Per account the fetcher resolves servers, computes the last-check time,
spawns one sub-task per server, waits for them all, and persists
`last_fetch/<account name>` with the check time.  Each sub-task pages
through the server's inventory and processes the entries in order; a
connection failure, a server error mid-stream, or the 60-second timeout
simply cuts that server's entry stream short.  The wallet's decryption and
key-label results, and each server's delivered entries, are supplied as
data; as in the transmit model the interleaving processes the sub-tasks in
server order. -/

/-- A local wallet account (`wallet_account_record` fields the fetcher
reads). -/
structure Account where
  name : String
  address : Nat
  registrationDate : Nat
  deriving DecidableEq

/-- One inventory entry as processed by a fetch sub-task: the inventory id
the server announced (`email.second`), the ciphertext returned by
`mail_fetch_message`, its decryption by the wallet, and the sender label
(the wallet's `get_key_label` result, or `"INVALID SIGNATURE"` when the
label lookup threw). -/
structure InvEntry where
  invId : Nat
  ciphertext : Message
  plaintext : Message
  senderLabel : String
  deriving DecidableEq

/-- How far one server's sub-task got: a connection failure processes
nothing, a server error (or timeout cancellation) processes a prefix of the
inventory, and a clean pass processes all of it. -/
inductive FetchOutcome where
  | connectFailed
  | serverError (processed : List InvEntry)
  | completed (entries : List InvEntry)
  deriving DecidableEq

/-- The entries a sub-task actually processed. -/
def FetchOutcome.entries : FetchOutcome → List InvEntry
  | .connectFailed => []
  | .serverError processed => processed
  | .completed es => es

/-- Build the header for one fetched message (client.cpp 706-728):
`header.id` is the ciphertext's hash; for email-typed plaintext the sender
label and the message subject are used, for a transaction notice the
subject is the fixed notification string; recipient and timestamp are the
account name and the plaintext timestamp. -/
def headerOfEntry (H : Hash) (accountName : String) (e : InvEntry) : EmailHeader :=
  let base : EmailHeader :=
    { id := H e.ciphertext, sender := "", recipient := "", timestamp := 0, subject := "" }
  let base :=
    match e.plaintext.type with
    | .email => { base with sender := e.senderLabel, subject := e.plaintext.subject }
    | .transaction_notice =>
        { base with sender := e.senderLabel, subject := "Transaction Notification" }
    | _ => base
  { base with recipient := accountName, timestamp := e.plaintext.timestamp }

/-- Process one inventory entry (client.cpp 704-751): build the header and a
fresh `received` archive record; if the archive already holds the inventory
id, reuse that record — flipping an `accepted` record (a message we sent) to
`received` and treating it as new, otherwise treating it as already seen;
record the delivering server; store to the archive and the index; and for
new mail also store an inbox header and bump `_messages_in`. -/
def processInvEntry (H : Hash) (account : Account) (server : Server)
    (st : ClientState) (e : InvEntry) : ClientState :=
  let header := headerOfEntry H account.name e
  let fresh : MailArchiveRecord :=
    { id := H e.ciphertext
      status := .received
      sender := header.sender
      recipient := header.recipient
      recipientAddress := account.address
      content := e.ciphertext
      mailServers := [] }
  let recordNew : MailArchiveRecord × Bool :=
    match alookup st.archive e.invId with
    | some r =>
        if r.status = .accepted then ({ r with status := .received }, true)
        else (r, false)
    | none => (fresh, true)
  let record := { recordNew.1 with mailServers := insertServer server recordNew.1.mailServers }
  let st1 := { st with archive := astore st.archive e.invId record
                       index := indexInsert st.index (indexOfHeader header) }
  if recordNew.2 then
    { st1 with inbox := astore st1.inbox header.id header
               messagesIn := st1.messagesIn + 1 }
  else st1

/-- One account's fetch pass (the body of the account loop, client.cpp
630-770).  The last-check time is computed exactly as in the source (it
selects the inventory server-side; the servers' deliveries are already
given as data).  After all sub-tasks have been waited for, the
`last_fetch/<name>` property is stored with the check time —
unconditionally, whatever the sub-tasks did. -/
def accountPass (H : Hash) (getOldMessages : Bool) (chainNow : Nat)
    (st0 : ClientState) (account : Account)
    (serverData : List (Server × FetchOutcome)) : ClientState :=
  let _lastCheckTime :=
    if ¬getOldMessages then
      match alookup st0.properties ("last_fetch/" ++ account.name) with
      | some t => t
      | none => account.registrationDate
    else account.registrationDate
  let checkTime := chainNow
  let st1 := serverData.foldl
    (fun st sd => sd.2.entries.foldl (fun st e => processInvEntry H account sd.1 st e) st)
    st0
  { st1 with properties := astore st1.properties ("last_fetch/" ++ account.name) checkTime }

/-- `client_impl::check_new_mail`: reset `_messages_in`, run every
account's pass, and return the final state (whose `messagesIn` is the
returned count). -/
def checkNewMail (H : Hash) (getOldMessages : Bool) (chainNow : Nat)
    (st : ClientState) (accounts : List (Account × List (Server × FetchOutcome))) :
    ClientState :=
  accounts.foldl (fun st ad => accountPass H getOldMessages chainNow st ad.1 ad.2)
    { st with messagesIn := 0 }

/-- `client::check_new_messages` (client.cpp 830-837): whether the
`new_mail_notifier` fires, i.e. whether the returned count is positive. -/
def newMailNotified (H : Hash) (getOldMessages : Bool) (chainNow : Nat)
    (st : ClientState) (accounts : List (Account × List (Server × FetchOutcome))) : Bool :=
  0 < (checkNewMail H getOldMessages chainNow st accounts).messagesIn

/-! ## Claim C1 — failed records and `failure_reason` across the store -/

/-- A parked outgoing record: `failed` with the reason every `failed`
writer sets before storing. -/
def c1FailedRecord : MailRecord :=
  { id := 1
    status := .failed
    sender := "alice"
    recipient := "bob"
    recipientKey := 3
    content := { type := .encrypted, timestamp := 10, nonce := 4, subject := "", body := 0 }
    mailServers := [("server", 1)]
    proofOfWorkTarget := 9
    failureReason := "Canceled by user." }

/-- C1: the claim that a `failed` processing record still carries a
non-empty `failure_reason` after being stored to the processing database
and fetched back is violated by the code: the `FC_REFLECT` field list of
`mail_record` omits `failure_reason`, so the disk round trip performed on
reopen returns the record still `failed` but with an empty
`failure_reason`, while every other field survives. -/
theorem c1_failure_reason_lost_on_disk_round_trip :
    diskRoundTrip c1FailedRecord = { c1FailedRecord with failureReason := "" } ∧
    (diskRoundTrip c1FailedRecord).status = .failed ∧
    (diskRoundTrip c1FailedRecord).failureReason = "" ∧
    c1FailedRecord.failureReason ≠ "" := by
  refine ⟨rfl, rfl, rfl, ?_⟩
  decide

/-! ## Claim C2 — the `cancel_message` boundary -/

/-- C2 counterexample: the claim says a `cancel_message` call on an id with
no processing record rejects with an error; in the code the `if
(itr.valid())` guard makes such a call return successfully, changing
nothing and raising no error. -/
theorem c2_cancel_of_missing_record_is_silently_ok :
    alookup ([] : List (Nat × MailRecord)) 7 = none ∧
    cancelMessage [] 7 = Except.ok [] :=
  ⟨rfl, rfl⟩

/-- C2 (amended): `cancel_message(id)` stores the record back with status
`canceled` iff a processing record exists with status `submitted` or
`proof_of_work`; if a record exists in any later status the call rejects
with an error and changes no state; and if no record exists the call
returns without error and changes no state. -/
theorem c2_cancel_boundary (db : List (Nat × MailRecord)) (mid : Nat) :
    (∀ r, alookup db mid = some r →
      ((r.status = .submitted ∨ r.status = .proof_of_work) →
        cancelMessage db mid = .ok (astore db mid { r with status := .canceled })) ∧
      (r.status ≠ .submitted → r.status ≠ .proof_of_work →
        cancelMessage db mid =
          .error "Cannot cancel message once it has been submitted to servers.")) ∧
    (alookup db mid = none → cancelMessage db mid = .ok db) := by
  refine ⟨?_, ?_⟩
  · intro r hr
    have hle : r.status.le .proof_of_work ↔
        (r.status = .submitted ∨ r.status = .proof_of_work) := by
      cases r.status <;> decide
    refine ⟨?_, ?_⟩
    · intro hs
      simp only [cancelMessage, hr]
      rw [if_pos (hle.mpr hs)]
    · intro h1 h2
      simp only [cancelMessage, hr]
      rw [if_neg (fun hc => (hle.mp hc).elim h1 h2)]
  · intro h
    simp only [cancelMessage, h]

/-- A submitted record used to witness the cancel boundary. -/
def c2Record : MailRecord :=
  { id := 5
    status := .submitted
    sender := "alice"
    recipient := "bob"
    recipientKey := 3
    content := { type := .encrypted, timestamp := 1, nonce := 0, subject := "", body := 0 }
    mailServers := []
    proofOfWorkTarget := 9
    failureReason := "" }

/-- The processing database holding the witness record. -/
def c2Db : List (Nat × MailRecord) := [(5, c2Record)]

/-- C2 witness: cancelling the submitted record 5 succeeds and stores it
back as `canceled`. -/
theorem c2_cancel_boundary_witness :
    cancelMessage c2Db 5 =
      .ok (astore c2Db 5 { c2Record with status := .canceled }) :=
  ((c2_cancel_boundary c2Db 5).1 c2Record rfl).1 (Or.inl rfl)

/-! ## Claim C4 — what `finalize_message` does -/

/-- Any row inserted by `indexInsert` is represented afterwards: the
container holds a row with the inserted id (the new row, or the ordered-
unique survivor that blocked the insert). -/
theorem indexInsert_mem_id (idx : List MailIndexRecord) (row : MailIndexRecord) :
    ∃ x ∈ indexInsert idx row, x.id = row.id := by
  unfold indexInsert
  split
  · next h =>
      obtain ⟨x, hx, hbeq⟩ := List.any_eq_true.mp h
      exact ⟨x, hx, by simpa using hbeq⟩
  · exact ⟨row, by simp, rfl⟩

/-- C4: for any processing record fetched by `finalize_message` under the
stable id, the result state has no processing record under the stable id,
the archive holds — under the final content hash — the record with its id
overwritten by the final hash and status `accepted`, and the in-memory
index holds a row bearing the final id. -/
theorem c4_finalize_message_moves_record (H : Hash) (st : ClientState)
    (mid : Nat) (r : MailRecord) (h : alookup st.processing mid = some r) :
    alookup (finalizeMessage H st mid).processing mid = none ∧
    alookup (finalizeMessage H st mid).archive (H r.content) =
      some (archiveOfMailRecord { r with id := H r.content, status := .accepted }) ∧
    (archiveOfMailRecord { r with id := H r.content, status := .accepted }).status
      = .accepted ∧
    (∃ row ∈ (finalizeMessage H st mid).index, row.id = H r.content) := by
  refine ⟨?_, ?_, rfl, ?_⟩
  · simp only [finalizeMessage, h]
    exact alookup_aremove_self _ _
  · simp only [finalizeMessage, h]
    exact alookup_astore_self _ _ _
  · simp only [finalizeMessage, h]
    exact indexInsert_mem_id _ _

/-- A mined record ready to finalize. -/
def c4Record : MailRecord :=
  { id := 100
    status := .transmitting
    sender := "alice"
    recipient := "bob"
    recipientKey := 3
    content := { type := .encrypted, timestamp := 20, nonce := 6, subject := "", body := 0 }
    mailServers := [("server", 1)]
    proofOfWorkTarget := 9
    failureReason := "" }

/-- A client state holding only the record to finalize. -/
def c4State : ClientState :=
  { processing := [(100, c4Record)]
    archive := []
    inbox := []
    properties := []
    index := []
    messagesIn := 0
    archiveOpen := true
    processingOpen := true
    inboxOpen := true
    propertyOpen := true }

/-- C4 witness: finalizing record 100 empties processing at the stable id,
archives under the final hash with status `accepted`, and indexes the final
id. -/
theorem c4_finalize_message_moves_record_witness :
    alookup (finalizeMessage (fun m => m.nonce) c4State 100).processing 100 = none ∧
    alookup (finalizeMessage (fun m => m.nonce) c4State 100).archive 6 =
      some (archiveOfMailRecord { c4Record with id := 6, status := .accepted }) ∧
    (archiveOfMailRecord { c4Record with id := 6, status := .accepted }).status
      = .accepted ∧
    (∃ row ∈ (finalizeMessage (fun m => m.nonce) c4State 100).index, row.id = 6) :=
  c4_finalize_message_moves_record (fun m => m.nonce) c4State 100 c4Record rfl

/-! ## Claim C7 — the version property at `open` -/

/-- C7: on open, an absent `version` property is written with the supported
version; a present `version` property unequal to the supported version
makes open fail, observable through `is_open()` being false afterwards. -/
theorem c7_open_version_check (st : ClientState) :
    (alookup st.properties "version" = none →
      alookup (openClient st).properties "version" = some supportedDbVersion) ∧
    (∀ v, alookup st.properties "version" = some v → v ≠ supportedDbVersion →
      isOpen (openClient st) = false) := by
  constructor
  · intro h
    simp only [openClient, h, Option.isNone_none, if_true, alookup_astore_self]
    simp [isOpen, supportedDbVersion]
    exact alookup_astore_self _ _ _
  · intro v hv hne
    simp only [openClient, hv, Option.isNone_some, if_false]
    simp [hv, hne, closeOnOpenFailure, isOpen]

/-- A fresh closed state with no properties. -/
def c7StateAbsent : ClientState :=
  { processing := []
    archive := []
    inbox := []
    properties := []
    index := []
    messagesIn := 0
    archiveOpen := false
    processingOpen := false
    inboxOpen := false
    propertyOpen := false }

/-- A state whose property database carries an unsupported version. -/
def c7StateMismatch : ClientState :=
  { c7StateAbsent with properties := [("version", 2)] }

/-- C7 witness: opening writes the missing version property, and opening on
a version-2 database leaves the client closed. -/
theorem c7_open_version_check_witness :
    alookup (openClient c7StateAbsent).properties "version" = some supportedDbVersion ∧
    isOpen (openClient c7StateMismatch) = false :=
  ⟨(c7_open_version_check c7StateAbsent).1 rfl,
   (c7_open_version_check c7StateMismatch).2 2 rfl (by decide)⟩

/-! ## Claim C10 — `get_inbox` ordering -/

/-- C10: `get_inbox` returns exactly one header per inbox record (a
permutation of the stored values), sorted by non-decreasing timestamp,
whatever order the inbox store holds them in. -/
theorem c10_get_inbox_sorted (st : ClientState) :
    (getInbox st).Perm (st.inbox.map (fun kv => kv.2)) ∧
    List.Pairwise (fun a b : EmailHeader => a.timestamp ≤ b.timestamp) (getInbox st) := by
  constructor
  · exact List.mergeSort_perm _ _
  · have h := @List.sorted_mergeSort EmailHeader
      (fun a b => decide (a.timestamp ≤ b.timestamp))
      (fun a b c hab hbc => by
        simp only [decide_eq_true_eq] at *
        omega)
      (fun a b => by
        simp only [Bool.or_eq_true, decide_eq_true_eq]
        omega)
      (st.inbox.map (fun kv => kv.2))
    exact h.imp (fun hab => by simpa using hab)

/-! ## Claim C5 — cancellation observed by the proof-of-work job -/

/-- A record already `canceled` (by `cancel_message`) when the queued
proof-of-work job starts, with a perfectly good nonzero target. -/
def c5Record : MailRecord :=
  { id := 42
    status := .canceled
    sender := "alice"
    recipient := "bob"
    recipientKey := 1
    content := { type := .encrypted, timestamp := 5, nonce := 7, subject := "", body := 0 }
    mailServers := [("server", 1)]
    proofOfWorkTarget := 3
    failureReason := "" }

/-- A client state holding only the canceled record. -/
def c5State : ClientState :=
  { processing := [(42, c5Record)]
    archive := []
    inbox := []
    properties := []
    index := []
    messagesIn := 0
    archiveOpen := true
    processingOpen := true
    inboxOpen := true
    propertyOpen := true }

/-- C5: the claim that a proof-of-work job observing a `canceled` record
stores it as `failed` with reason exactly `"Canceled by user."` fails at
the job-start checkpoint: the job assigns `email->status = client::failed`
and only then evaluates `email->status == client::canceled ? "Canceled by
user." : ...`, so the stored reason is the no-target message instead.
(At the mining-slice boundary checkpoint, client.cpp 390-395, the reason is
the correct one.) -/
theorem c5_cancel_at_job_start_stores_wrong_reason :
    powJob (fun m => m.nonce) c5State 42 [] =
      some { c5State with processing := [(42, { c5Record with
        status := .failed
        failureReason := "No proof of work target. Cannot do proof of work." })] } ∧
    "No proof of work target. Cannot do proof of work." ≠ "Canceled by user." := by
  refine ⟨rfl, ?_⟩
  decide

/-! ## Claim C6 — `last_fetch` advancement by the fetcher -/

/-- Left-cancellation of string concatenation, used to tell
`last_fetch/<a>` keys of distinct accounts apart. -/
theorem string_append_left_cancel {p a b : String} (h : p ++ a = p ++ b) : a = b := by
  have hd : (p ++ a).data = (p ++ b).data := by rw [h]
  simp only [String.data_append] at hd
  have h2 := List.append_cancel_left hd
  cases a
  cases b
  exact congrArg String.mk h2

/-- Processing one fetched inventory entry never touches the property
database. -/
theorem processInvEntry_properties (H : Hash) (a : Account) (s : Server)
    (st : ClientState) (e : InvEntry) :
    (processInvEntry H a s st e).properties = st.properties := by
  simp only [processInvEntry]
  split <;> rfl

/-- A whole fetch sub-task's entry stream never touches the property
database. -/
theorem foldEntries_properties (H : Hash) (a : Account) (s : Server)
    (es : List InvEntry) (st : ClientState) :
    (es.foldl (fun st e => processInvEntry H a s st e) st).properties = st.properties := by
  induction es generalizing st with
  | nil => rfl
  | cons e rest ih =>
      simp only [List.foldl_cons]
      rw [ih, processInvEntry_properties]

/-- An account's sub-tasks collectively never touch the property
database. -/
theorem foldServers_properties (H : Hash) (a : Account)
    (serverData : List (Server × FetchOutcome)) (st : ClientState) :
    (serverData.foldl
      (fun st sd => sd.2.entries.foldl (fun st e => processInvEntry H a sd.1 st e) st)
      st).properties = st.properties := by
  induction serverData generalizing st with
  | nil => rfl
  | cons sd rest ih =>
      simp only [List.foldl_cons]
      rw [ih, foldEntries_properties]

/-- After an account's pass, its `last_fetch` property equals the pass's
check time — whatever the sub-tasks did. -/
theorem accountPass_last_fetch_self (H : Hash) (getOld : Bool) (chainNow : Nat)
    (st : ClientState) (a : Account) (d : List (Server × FetchOutcome)) :
    alookup (accountPass H getOld chainNow st a d).properties
      ("last_fetch/" ++ a.name) = some chainNow := by
  simp only [accountPass]
  exact alookup_astore_self _ _ _

/-- An account's pass changes no property other than its own `last_fetch`
key. -/
theorem accountPass_properties_other (H : Hash) (getOld : Bool) (chainNow : Nat)
    (st : ClientState) (a : Account) (d : List (Server × FetchOutcome))
    (k : String) (hk : k ≠ "last_fetch/" ++ a.name) :
    alookup (accountPass H getOld chainNow st a d).properties k =
      alookup st.properties k := by
  simp only [accountPass]
  rw [alookup_astore_other _ _ _ _ hk, foldServers_properties]

/-- Accounts whose `last_fetch` keys differ from `k` leave the property at
`k` alone. -/
theorem foldAccounts_properties_other (H : Hash) (getOld : Bool) (chainNow : Nat)
    (accs : List (Account × List (Server × FetchOutcome))) (st0 : ClientState)
    (k : String) (hk : ∀ ad ∈ accs, k ≠ "last_fetch/" ++ ad.1.name) :
    alookup ((accs.foldl (fun st ad => accountPass H getOld chainNow st ad.1 ad.2)
        st0).properties) k = alookup st0.properties k := by
  induction accs generalizing st0 with
  | nil => rfl
  | cons ad rest ih =>
      simp only [List.foldl_cons]
      rw [ih _ (fun x hx => hk x (List.mem_cons_of_mem _ hx)),
          accountPass_properties_other _ _ _ _ _ _ _ (hk ad (List.mem_cons_self _ _))]

/-- A local wallet account. -/
def c6Account : Account := { name := "alice", address := 11, registrationDate := 20 }

/-- A pass in which both servers refuse the connection: the pass fails
entirely. -/
def c6ServerData : List (Server × FetchOutcome) :=
  [(("s1", 1), .connectFailed), (("s2", 2), .connectFailed)]

/-- A client state whose previous fetch for `alice` happened at time 50. -/
def c6State : ClientState :=
  { processing := []
    archive := []
    inbox := []
    properties := [("last_fetch/alice", 50)]
    index := []
    messagesIn := 0
    archiveOpen := true
    processingOpen := true
    inboxOpen := true
    propertyOpen := true }

/-- C6 counterexample: an account pass in which every server sub-task
failed (both connections refused) still overwrites `last_fetch/alice` with
the new check time 90, where the claim demands it stay at 50. -/
theorem c6_last_fetch_advanced_despite_total_failure :
    alookup c6State.properties "last_fetch/alice" = some 50 ∧
    (∀ sd ∈ c6ServerData, sd.2 = FetchOutcome.connectFailed) ∧
    alookup (checkNewMail (fun m => m.nonce) false 90 c6State
        [(c6Account, c6ServerData)]).properties "last_fetch/alice" = some 90 := by
  refine ⟨rfl, ?_, rfl⟩
  decide

/-- C6 (amended): `check_new_mail` overwrites `last_fetch/<name>` with the
pass's check time for every processed account once the pass completes,
regardless of how many server sub-tasks failed or timed out. -/
theorem c6_last_fetch_always_advanced (H : Hash) (getOld : Bool) (chainNow : Nat)
    (st : ClientState) (accounts : List (Account × List (Server × FetchOutcome)))
    (hnames : (accounts.map (fun ad => ad.1.name)).Nodup) :
    ∀ ad ∈ accounts,
      alookup (checkNewMail H getOld chainNow st accounts).properties
        ("last_fetch/" ++ ad.1.name) = some chainNow := by
  unfold checkNewMail
  generalize { st with messagesIn := 0 } = st0
  induction accounts generalizing st0 with
  | nil => intro ad h; cases h
  | cons a rest ih =>
      intro ad had
      rcases List.mem_cons.mp had with rfl | hmem
      · simp only [List.foldl_cons]
        rw [foldAccounts_properties_other]
        · exact accountPass_last_fetch_self _ _ _ _ _ _
        · intro x hx heq
          have hxname : ad.1.name = x.1.name := string_append_left_cancel heq
          have : x.1.name ∈ rest.map (fun ad => ad.1.name) :=
            List.mem_map.mpr ⟨x, hx, rfl⟩
          rw [← hxname] at this
          exact (List.nodup_cons.mp hnames).1 this
      · simp only [List.foldl_cons]
        exact ih (List.nodup_cons.mp hnames).2 _ ad hmem

/-- C6 witness: the single-account fetch pass advances `last_fetch` for the
witness account to the check time. -/
theorem c6_last_fetch_always_advanced_witness :
    alookup (checkNewMail (fun m => m.nonce) false 90 c6State
        [(c6Account, c6ServerData)]).properties
      ("last_fetch/" ++ c6Account.name) = some 90 :=
  c6_last_fetch_always_advanced (fun m => m.nonce) false 90 c6State
    [(c6Account, c6ServerData)] (by decide) (c6Account, c6ServerData)
    (List.mem_singleton.mpr rfl)

/-! ## Claim C8 — index coherence after background indexing -/

/-- Whether an index row matches an archive record on all four indexed
fields: id, sender, recipient, and the timestamp of the archived
content. -/
def rowMatches (r : MailArchiveRecord) (row : MailIndexRecord) : Bool :=
  row.id == r.id && row.sender == r.sender && row.recipient == r.recipient &&
    row.timestamp == r.content.timestamp

/-- When the records being indexed have pairwise distinct ids and none of
them clashes with the accumulator, the indexing fold appends exactly one
row per record. -/
theorem indexArchive_fold_eq (l : List (Nat × MailArchiveRecord))
    (acc : List MailIndexRecord)
    (hacc : ∀ kv ∈ l, ∀ x ∈ acc, x.id ≠ kv.2.id)
    (hnodup : (l.map (fun kv => kv.2.id)).Nodup) :
    l.foldl (fun idx kv => indexInsert idx (indexOfArchiveRecord kv.2)) acc
      = acc ++ l.map (fun kv => indexOfArchiveRecord kv.2) := by
  induction l generalizing acc with
  | nil => simp
  | cons kv rest ih =>
      simp only [List.foldl_cons, List.map_cons]
      have hany : (acc.any (fun x => x.id == (indexOfArchiveRecord kv.2).id)) = false := by
        rw [List.any_eq_false]
        intro x hx
        simp only [indexOfArchiveRecord, beq_iff_eq]
        exact hacc kv (List.mem_cons_self _ _) x hx
      have hins : indexInsert acc (indexOfArchiveRecord kv.2)
          = acc ++ [indexOfArchiveRecord kv.2] := by
        unfold indexInsert
        rw [hany]
        simp
      rw [hins]
      have hhead : kv.2.id ∉ rest.map (fun kv => kv.2.id) :=
        (List.nodup_cons.mp hnodup).1
      rw [ih (acc ++ [indexOfArchiveRecord kv.2]) ?_ (List.nodup_cons.mp hnodup).2]
      · rw [List.append_assoc, List.singleton_append]
      · intro kv' hkv' x hx
        rcases List.mem_append.mp hx with hx | hx
        · exact hacc kv' (List.mem_cons_of_mem _ hkv') x hx
        · rw [List.mem_singleton.mp hx]
          show kv.2.id ≠ kv'.2.id
          intro heq
          exact hhead (heq ▸ List.mem_map.mpr ⟨kv', hkv', rfl⟩)

/-- C8: after the background indexing pass over an archive whose records
carry pairwise distinct ids (the archive is keyed by record id), every
archive record has exactly one index row agreeing with it on id, sender,
recipient, and content timestamp. -/
theorem c8_index_coherence (archive : List (Nat × MailArchiveRecord))
    (hids : (archive.map (fun kv => kv.2.id)).Nodup) :
    ∀ kv ∈ archive, (indexArchive archive).countP (rowMatches kv.2) = 1 := by
  intro kv hkv
  unfold indexArchive
  rw [indexArchive_fold_eq archive []
    (by intro kv' h x hx; exact absurd hx (List.not_mem_nil x)) hids]
  rw [List.nil_append, List.countP_map]
  obtain ⟨s, t, rfl⟩ := List.append_of_mem hkv
  rw [List.map_append, List.map_cons] at hids
  obtain ⟨hsnodup, hct, hdisj⟩ := List.nodup_append.mp hids
  have hkvnott : kv.2.id ∉ t.map (fun kv => kv.2.id) := (List.nodup_cons.mp hct).1
  have hpred : ∀ a : Nat × MailArchiveRecord,
      (rowMatches kv.2 ∘ fun kv' => indexOfArchiveRecord kv'.2) a = true →
      a.2.id = kv.2.id := by
    intro a ha
    simp only [Function.comp_apply, rowMatches, indexOfArchiveRecord, Bool.and_eq_true,
      beq_iff_eq] at ha
    exact ha.1.1.1
  rw [List.countP_append, List.countP_cons]
  have hs0 : List.countP (rowMatches kv.2 ∘ fun kv' => indexOfArchiveRecord kv'.2) s = 0 := by
    rw [List.countP_eq_zero]
    intro a ha hp
    exact hdisj (List.mem_map.mpr ⟨a, ha, hpred a hp⟩) (List.mem_cons_self _ _)
  have ht0 : List.countP (rowMatches kv.2 ∘ fun kv' => indexOfArchiveRecord kv'.2) t = 0 := by
    rw [List.countP_eq_zero]
    intro a ha hp
    exact hkvnott ((hpred a hp) ▸ List.mem_map.mpr ⟨a, ha, rfl⟩)
  have hself : (rowMatches kv.2 ∘ fun kv' => indexOfArchiveRecord kv'.2) kv = true := by
    simp [rowMatches, indexOfArchiveRecord]
  rw [hs0, ht0, hself]
  simp

/-- A received archive record with id 1. -/
def c8RecordA : MailArchiveRecord :=
  { id := 1, status := .received, sender := "carol", recipient := "alice",
    recipientAddress := 11,
    content := { type := .encrypted, timestamp := 30, nonce := 0, subject := "", body := 1 },
    mailServers := [("s1", 1)] }

/-- An accepted archive record with id 2. -/
def c8RecordB : MailArchiveRecord :=
  { id := 2, status := .accepted, sender := "alice", recipient := "bob",
    recipientAddress := 12,
    content := { type := .encrypted, timestamp := 40, nonce := 3, subject := "", body := 2 },
    mailServers := [("s2", 2)] }

/-- Two archived records with distinct ids. -/
def c8Archive : List (Nat × MailArchiveRecord) := [(1, c8RecordA), (2, c8RecordB)]

/-- C8 witness: the first archived record has exactly one matching index
row after indexing. -/
theorem c8_index_coherence_witness :
    (indexArchive c8Archive).countP (rowMatches c8RecordA) = 1 :=
  c8_index_coherence c8Archive (by decide) (1, c8RecordA) (by decide)

/-! ## Claim C9 — repeated `check_new_mail` with no new content -/

/-- Status preservation of an archive relative to a base archive: every key
of the base is still present with an unchanged status. -/
def archStatusEq (base cur : List (Nat × MailArchiveRecord)) : Prop :=
  ∀ k r, alookup base k = some r → ∃ r', alookup cur k = some r' ∧ r'.status = r.status

/-- The fetch-pass invariant for a run that sees nothing new: the inbox and
the new-mail counter are frozen and archive statuses are preserved. -/
def fetchInv (base : List (Nat × MailArchiveRecord)) (inbox0 : List (Nat × EmailHeader))
    (m0 : Nat) (st : ClientState) : Prop :=
  st.inbox = inbox0 ∧ st.messagesIn = m0 ∧ archStatusEq base st.archive

/-- Processing an inventory entry whose id the base archive already holds
with a non-`accepted` status preserves the fetch-pass invariant: the entry
is classified as already seen, so only its archive record's server set is
refreshed. -/
theorem processInvEntry_inv (H : Hash) (acc : Account) (srv : Server)
    (st' : ClientState) (e : InvEntry) (base : List (Nat × MailArchiveRecord))
    (inbox0 : List (Nat × EmailHeader)) (m0 : Nat)
    (hinv : fetchInv base inbox0 m0 st')
    (he : ∃ r, alookup base e.invId = some r ∧ r.status ≠ .accepted) :
    fetchInv base inbox0 m0 (processInvEntry H acc srv st' e) := by
  obtain ⟨hinbox, hmsg, harch⟩ := hinv
  obtain ⟨r, hr, hrs⟩ := he
  obtain ⟨r', hr', hrs'⟩ := harch _ _ hr
  have hra : ¬r'.status = .accepted := by rw [hrs']; exact hrs
  refine ⟨?_, ?_, ?_⟩
  · simp only [processInvEntry, hr', if_neg hra]
    exact hinbox
  · simp only [processInvEntry, hr', if_neg hra]
    exact hmsg
  · intro k r0 hk
    simp only [processInvEntry, hr', if_neg hra, Bool.false_eq_true, if_false]
    by_cases hkk : k = e.invId
    · subst hkk
      have hr0 : r0 = r := by
        rw [hr] at hk
        exact (Option.some_inj.mp hk).symm
      refine ⟨_, alookup_astore_self _ _ _, ?_⟩
      rw [hr0]
      exact hrs'
    · obtain ⟨r1, hr1, hr1s⟩ := harch _ _ hk
      exact ⟨r1, by rw [alookup_astore_other _ _ _ _ hkk]; exact hr1, hr1s⟩

/-- One sub-task's entry stream of already-seen ids preserves the
fetch-pass invariant. -/
theorem foldEntries_inv (H : Hash) (acc : Account) (srv : Server)
    (es : List InvEntry) (st' : ClientState)
    (base : List (Nat × MailArchiveRecord)) (inbox0 : List (Nat × EmailHeader)) (m0 : Nat)
    (hinv : fetchInv base inbox0 m0 st')
    (hes : ∀ e ∈ es, ∃ r, alookup base e.invId = some r ∧ r.status ≠ .accepted) :
    fetchInv base inbox0 m0 (es.foldl (fun st e => processInvEntry H acc srv st e) st') := by
  induction es generalizing st' with
  | nil => exact hinv
  | cons e rest ih =>
      simp only [List.foldl_cons]
      exact ih _ (processInvEntry_inv H acc srv st' e base inbox0 m0 hinv
          (hes e (List.mem_cons_self _ _)))
        (fun e' he' => hes e' (List.mem_cons_of_mem _ he'))

/-- An account's sub-tasks collectively preserve the fetch-pass invariant
when everything delivered is already seen. -/
theorem foldServers_inv (H : Hash) (acc : Account)
    (d : List (Server × FetchOutcome)) (st' : ClientState)
    (base : List (Nat × MailArchiveRecord)) (inbox0 : List (Nat × EmailHeader)) (m0 : Nat)
    (hinv : fetchInv base inbox0 m0 st')
    (hd : ∀ sd ∈ d, ∀ e ∈ sd.2.entries,
      ∃ r, alookup base e.invId = some r ∧ r.status ≠ .accepted) :
    fetchInv base inbox0 m0
      (d.foldl (fun st sd =>
        sd.2.entries.foldl (fun st e => processInvEntry H acc sd.1 st e) st) st') := by
  induction d generalizing st' with
  | nil => exact hinv
  | cons sd rest ih =>
      simp only [List.foldl_cons]
      exact ih _ (foldEntries_inv H acc sd.1 sd.2.entries st' base inbox0 m0 hinv
          (hd sd (List.mem_cons_self _ _)))
        (fun sd' hsd' => hd sd' (List.mem_cons_of_mem _ hsd'))

/-- A whole account pass over already-seen inventory preserves the
fetch-pass invariant (the `last_fetch` property write touches none of its
components). -/
theorem accountPass_inv (H : Hash) (getOld : Bool) (chainNow : Nat)
    (st' : ClientState) (acc : Account) (d : List (Server × FetchOutcome))
    (base : List (Nat × MailArchiveRecord)) (inbox0 : List (Nat × EmailHeader)) (m0 : Nat)
    (hinv : fetchInv base inbox0 m0 st')
    (hd : ∀ sd ∈ d, ∀ e ∈ sd.2.entries,
      ∃ r, alookup base e.invId = some r ∧ r.status ≠ .accepted) :
    fetchInv base inbox0 m0 (accountPass H getOld chainNow st' acc d) := by
  have hfold := foldServers_inv H acc d st' base inbox0 m0 hinv hd
  simp only [accountPass]
  exact hfold

/-- All account passes over already-seen inventory preserve the fetch-pass
invariant. -/
theorem foldAccounts_inv (H : Hash) (getOld : Bool) (chainNow : Nat)
    (accs : List (Account × List (Server × FetchOutcome))) (st0 : ClientState)
    (base : List (Nat × MailArchiveRecord)) (inbox0 : List (Nat × EmailHeader)) (m0 : Nat)
    (hinv : fetchInv base inbox0 m0 st0)
    (hseen : ∀ ad ∈ accs, ∀ sd ∈ ad.2, ∀ e ∈ sd.2.entries,
      ∃ r, alookup base e.invId = some r ∧ r.status ≠ .accepted) :
    fetchInv base inbox0 m0
      (accs.foldl (fun st ad => accountPass H getOld chainNow st ad.1 ad.2) st0) := by
  induction accs generalizing st0 with
  | nil => exact hinv
  | cons ad rest ih =>
      simp only [List.foldl_cons]
      exact ih _ (accountPass_inv H getOld chainNow st0 ad.1 ad.2 base inbox0 m0 hinv
          (hseen ad (List.mem_cons_self _ _)))
        (fun ad' had' => hseen ad' (List.mem_cons_of_mem _ had'))

/-- C9: a `check_new_mail` run in which every delivered inventory id is
already archived with a non-`accepted` status (as after a first run that
stored everything as `received`) returns a zero count, fires no new-mail
notification, and leaves the inbox store exactly as it was. -/
theorem c9_repeat_check_finds_nothing_new (H : Hash) (getOld : Bool) (chainNow : Nat)
    (st : ClientState) (accounts : List (Account × List (Server × FetchOutcome)))
    (hseen : ∀ ad ∈ accounts, ∀ sd ∈ ad.2, ∀ e ∈ sd.2.entries,
      ∃ r, alookup st.archive e.invId = some r ∧ r.status ≠ .accepted) :
    (checkNewMail H getOld chainNow st accounts).messagesIn = 0 ∧
    (checkNewMail H getOld chainNow st accounts).inbox = st.inbox ∧
    newMailNotified H getOld chainNow st accounts = false := by
  have hinv : fetchInv st.archive st.inbox 0 { st with messagesIn := 0 } :=
    ⟨rfl, rfl, fun k r h => ⟨r, h, rfl⟩⟩
  have hfinal := foldAccounts_inv H getOld chainNow accounts { st with messagesIn := 0 }
    st.archive st.inbox 0 hinv hseen
  obtain ⟨h1, h2, _⟩ := hfinal
  refine ⟨h2, h1, ?_⟩
  unfold newMailNotified
  rw [show checkNewMail H getOld chainNow st accounts =
    accounts.foldl (fun st ad => accountPass H getOld chainNow st ad.1 ad.2)
      { st with messagesIn := 0 } from rfl]
  rw [h2]
  decide

/-- An already-received archive record under inventory id 9. -/
def c9Record : MailArchiveRecord :=
  { id := 9, status := .received, sender := "carol", recipient := "alice",
    recipientAddress := 11,
    content := { type := .encrypted, timestamp := 30, nonce := 0, subject := "hi", body := 1 },
    mailServers := [("s1", 1)] }

/-- A client state after a first fetch run stored record 9 in archive and
inbox. -/
def c9State : ClientState :=
  { processing := []
    archive := [(9, c9Record)]
    inbox := [(9, { id := 9, sender := "carol", recipient := "alice",
                    timestamp := 30, subject := "hi" })]
    properties := [("last_fetch/alice", 50)]
    index := []
    messagesIn := 1
    archiveOpen := true
    processingOpen := true
    inboxOpen := true
    propertyOpen := true }

/-- The second run's deliveries: the same single message again. -/
def c9Accounts : List (Account × List (Server × FetchOutcome)) :=
  [({ name := "alice", address := 11, registrationDate := 20 },
    [(("s1", 1), .completed [{ invId := 9
                               ciphertext := { type := .encrypted, timestamp := 30, nonce := 0,
                                               subject := "hi", body := 1 }
                               plaintext := { type := .email, timestamp := 30, nonce := 0,
                                              subject := "hi", body := 1 }
                               senderLabel := "carol" }])])]

/-- C9 witness: re-fetching the already-stored message 9 counts zero new
messages, fires no notification, and leaves the inbox unchanged. -/
theorem c9_repeat_check_finds_nothing_new_witness :
    (checkNewMail (fun m => m.nonce) false 90 c9State c9Accounts).messagesIn = 0 ∧
    (checkNewMail (fun m => m.nonce) false 90 c9State c9Accounts).inbox = c9State.inbox ∧
    newMailNotified (fun m => m.nonce) false 90 c9State c9Accounts = false :=
  c9_repeat_check_finds_nothing_new (fun m => m.nonce) false 90 c9State c9Accounts
    (by decide)

/-! ## Claim C3 — proof-of-work validity at finalize -/

/-- A concrete digest for the counterexample runs: the nonce itself. -/
def hashNonce : Hash := fun m => m.nonce

/-- A mined outgoing record: content hash 5 equals the target 5, two
resolved servers. -/
def c3Record : MailRecord :=
  { id := 100
    status := .proof_of_work
    sender := "alice"
    recipient := "bob"
    recipientKey := 1
    content := { type := .encrypted, timestamp := 10, nonce := 5, subject := "", body := 0 }
    mailServers := [("a", 1), ("b", 2)]
    proofOfWorkTarget := 5
    failureReason := "" }

/-- The client state holding the mined record. -/
def c3State : ClientState :=
  { processing := [(100, c3Record)]
    archive := []
    inbox := []
    properties := []
    index := []
    messagesIn := 0
    archiveOpen := true
    processingOpen := true
    inboxOpen := true
    propertyOpen := true }

/-- Server `a` answers `timestamp_too_old`; server `b` accepts. -/
def c3Resp : Server → TransmitResponse :=
  fun s => if s.2 = 1 then .errorTimestampTooOld else .success

/-- The archive record the run produces: mined nonce bumped to 6, so the
content hash 6 exceeds the target 5. -/
def c3Archived : MailArchiveRecord :=
  { id := 6
    status := .accepted
    sender := "alice"
    recipient := "bob"
    recipientAddress := 1
    content := { type := .encrypted, timestamp := 10, nonce := 6, subject := "", body := 0 }
    mailServers := [("b", 2)] }

/-- C3 counterexample: starting from a record whose content hash meets its
target, a transmit pass in which one server answers `timestamp_too_old`
(bumping the nonce) while another succeeds still finalizes, newly archiving
an `accepted` record whose content hash 6 exceeds the proof-of-work target
5 — where the claim demands hash ≤ target at finalize even in such runs. -/
theorem c3_pow_target_violated_after_timestamp_too_old :
    hashNonce c3Record.content ≤ c3Record.proofOfWorkTarget ∧
    alookup c3State.archive 6 = none ∧
    alookup (transmitMessage hashNonce c3State 100 c3Resp).archive 6 = some c3Archived ∧
    c3Archived.status = .accepted ∧
    c3Record.proofOfWorkTarget < hashNonce c3Archived.content := by
  exact ⟨by decide, rfl, rfl, rfl, by decide⟩

/-- Content-and-target stability of the processing record under a message
id: every record the database holds at `mid` carries the given content and
proof-of-work target. -/
def procContentInv (mid : Nat) (c : Message) (t : Nat)
    (db : List (Nat × MailRecord)) : Prop :=
  ∀ e, alookup db mid = some e → e.content = c ∧ e.proofOfWorkTarget = t

/-- Storing a record with the given content and target at `mid` establishes
the stability predicate. -/
theorem procContentInv_astore (db : List (Nat × MailRecord)) (mid : Nat)
    (c : Message) (t : Nat) (r : MailRecord)
    (h1 : r.content = c) (h2 : r.proofOfWorkTarget = t) :
    procContentInv mid c t (astore db mid r) := by
  intro e' he'
  rw [alookup_astore_self] at he'
  obtain rfl := Option.some_inj.mp he'
  exact ⟨h1, h2⟩

/-- A transmit sub-task that does not see `timestamp_too_old` never touches
the archive and never changes the processing record's content or target:
its stores only rewrite status and failure reason. -/
theorem transmitSubtask_preserves (mid : Nat) (server : Server)
    (resp : TransmitResponse) (ts : TransmitState) (c : Message) (t : Nat)
    (hresp : resp ≠ .errorTimestampTooOld)
    (hinv : procContentInv mid c t ts.st.processing) :
    (transmitSubtask mid server resp ts).st.archive = ts.st.archive ∧
    procContentInv mid c t (transmitSubtask mid server resp ts).st.processing := by
  unfold transmitSubtask
  cases hlk : alookup ts.st.processing mid with
  | none => exact ⟨rfl, hinv⟩
  | some email =>
      obtain ⟨hc, ht⟩ := hinv email hlk
      cases resp with
      | connectFail e =>
          dsimp only
          by_cases hsucc : ts.successfulServers = []
          · rw [if_pos hsucc]
            exact ⟨rfl, procContentInv_astore _ _ _ _ _ hc ht⟩
          · rw [if_neg hsucc]
            exact ⟨rfl, hinv⟩
      | errorAlreadyStored => exact ⟨rfl, hinv⟩
      | errorTimestampTooOld => exact absurd rfl hresp
      | errorOther e => exact ⟨rfl, procContentInv_astore _ _ _ _ _ hc ht⟩
      | wrongMessage => exact ⟨rfl, procContentInv_astore _ _ _ _ _ hc ht⟩
      | success => exact ⟨rfl, hinv⟩

/-- The supervising wait loop preserves both stability facts through every
sub-task, aborted or not. -/
theorem runTransmitTasks_preserves (mid : Nat) (resp : Server → TransmitResponse)
    (c : Message) (t : Nat) (hresp : ∀ s, resp s ≠ .errorTimestampTooOld) :
    ∀ (servers : List Server) (ts : TransmitState),
      procContentInv mid c t ts.st.processing →
      (runTransmitTasks mid resp servers ts).1.st.archive = ts.st.archive ∧
      procContentInv mid c t (runTransmitTasks mid resp servers ts).1.st.processing := by
  intro servers
  induction servers with
  | nil => intro ts hinv; exact ⟨rfl, hinv⟩
  | cons server rest ih =>
      intro ts hinv
      obtain ⟨ha1, hi1⟩ :=
        transmitSubtask_preserves mid server (resp server) ts c t (hresp server) hinv
      unfold runTransmitTasks
      dsimp only
      cases hlk : alookup (transmitSubtask mid server (resp server) ts).st.processing mid with
      | none => exact ⟨ha1, hi1⟩
      | some email =>
          dsimp only
          by_cases hf : email.status = .failed
          · rw [if_pos hf]
            exact ⟨ha1, hi1⟩
          · rw [if_neg hf]
            obtain ⟨ha2, hi2⟩ := ih (transmitSubtask mid server (resp server) ts) hi1
            exact ⟨ha2.trans ha1, hi2⟩

/-- C3 (amended): when no server answers `timestamp_too_old` during the
transmit pass, every record the pass newly moves into the archive is
`accepted` with its content hash within the processing record's
proof-of-work target; a `timestamp_too_old` answer bumps the nonce and can
leave the archived content hash above the target, as the counterexample
shows. -/
theorem c3_pow_validity_without_stale_timestamp (H : Hash) (st : ClientState)
    (mid : Nat) (resp : Server → TransmitResponse)
    (hresp : ∀ s, resp s ≠ .errorTimestampTooOld)
    (r0 : MailRecord) (h0 : alookup st.processing mid = some r0)
    (hmined : H r0.content ≤ r0.proofOfWorkTarget) :
    ∀ k a, alookup (transmitMessage H st mid resp).archive k = some a →
      alookup st.archive k = some a ∨
      (a.status = .accepted ∧ H a.content ≤ r0.proofOfWorkTarget) := by
  intro k a ha
  simp only [transmitMessage, h0] at ha
  by_cases hempty : r0.mailServers = []
  · rw [if_pos hempty] at ha
    exact Or.inl ha
  · rw [if_neg hempty] at ha
    have hinv1 : procContentInv mid r0.content r0.proofOfWorkTarget
        (astore st.processing mid { r0 with status := .transmitting }) :=
      procContentInv_astore _ _ _ _ _ rfl rfl
    obtain ⟨harch, hinv⟩ := runTransmitTasks_preserves mid resp r0.content
      r0.proofOfWorkTarget hresp r0.mailServers
      ⟨{ st with processing := astore st.processing mid { r0 with status := .transmitting } }, []⟩
      hinv1
    rcases hrun : runTransmitTasks mid resp r0.mailServers
      ⟨{ st with processing := astore st.processing mid { r0 with status := .transmitting } }, []⟩
      with ⟨ts, aborted⟩
    rw [hrun] at ha harch hinv
    have harch2 : ts.st.archive = st.archive := harch
    clear harch
    cases aborted with
    | true =>
        have ha2 : alookup ts.st.archive k = some a := ha
        rw [harch2] at ha2
        exact Or.inl ha2
    | false =>
        dsimp only at ha
        simp only [Bool.false_eq_true, if_false] at ha
        by_cases hss : ts.successfulServers = []
        · rw [if_neg (not_not_intro hss)] at ha
          rw [harch2] at ha
          exact Or.inl ha
        · rw [if_pos hss] at ha
          cases hlk : alookup ts.st.processing mid with
          | none =>
              rw [hlk] at ha
              have ha2 : alookup ts.st.archive k = some a := ha
              rw [harch2] at ha2
              exact Or.inl ha2
          | some emailFinal =>
              obtain ⟨hc, ht⟩ := hinv emailFinal hlk
              rw [hlk] at ha
              simp only [finalizeMessage, alookup_astore_self] at ha
              by_cases hk : k = H emailFinal.content
              · rw [hk] at ha
                rw [show (H ({ emailFinal with mailServers := ts.successfulServers
                    } : MailRecord).content) = H emailFinal.content from rfl] at ha
                rw [alookup_astore_self] at ha
                obtain rfl := Option.some_inj.mp ha
                refine Or.inr ⟨rfl, ?_⟩
                show H emailFinal.content ≤ r0.proofOfWorkTarget
                rw [hc]
                exact hmined
              · rw [show (H ({ emailFinal with mailServers := ts.successfulServers
                    } : MailRecord).content) = H emailFinal.content from rfl] at ha
                rw [alookup_astore_other _ _ _ _ hk] at ha
                have ha2 : alookup ts.st.archive k = some a := ha
                rw [harch2] at ha2
                exact Or.inl ha2

/-- A mined single-server record for the clean-transmit witness run. -/
def c3wRecord : MailRecord :=
  { id := 100
    status := .proof_of_work
    sender := "alice"
    recipient := "bob"
    recipientKey := 1
    content := { type := .encrypted, timestamp := 10, nonce := 5, subject := "", body := 0 }
    mailServers := [("a", 1)]
    proofOfWorkTarget := 5
    failureReason := "" }

/-- The client state holding the witness record. -/
def c3wState : ClientState :=
  { processing := [(100, c3wRecord)]
    archive := []
    inbox := []
    properties := []
    index := []
    messagesIn := 0
    archiveOpen := true
    processingOpen := true
    inboxOpen := true
    propertyOpen := true }

/-- The archive record the clean run produces. -/
def c3wArchived : MailArchiveRecord :=
  { id := 5
    status := .accepted
    sender := "alice"
    recipient := "bob"
    recipientAddress := 1
    content := { type := .encrypted, timestamp := 10, nonce := 5, subject := "", body := 0 }
    mailServers := [("a", 1)] }

/-- C3 witness: in a transmit pass whose only server simply accepts, the
newly archived record is `accepted` with content hash within the target. -/
theorem c3_pow_validity_without_stale_timestamp_witness :
    alookup c3wState.archive 5 = some c3wArchived ∨
    (c3wArchived.status = .accepted ∧
      hashNonce c3wArchived.content ≤ c3wRecord.proofOfWorkTarget) :=
  c3_pow_validity_without_stale_timestamp hashNonce c3wState 100 (fun _ => .success)
    (fun _ h => TransmitResponse.noConfusion h) c3wRecord rfl (by decide) 5 c3wArchived rfl

end MailClient
